import Mathlib

/-!
Shallow embedding of `cli.go` from the `solar` repository (package `solar`).

The `solarCLI` struct and its methods are embedded as pure Lean functions over
an explicit process state (`solarCLIState`).  External collaborators — the
`contract` repository opener, `url.ParseRequestURI`, the two backend deployer
constructors and `os.Getwd` — are passed in as an `Externals` record, exactly
at the granularity at which `cli.go` calls them.  Calls that terminate the
process (`log.Fatal*`, `os.Exit(1)`) are embedded as an `Except FatalError`
result.  Each stateful accessor additionally returns the list of external
`Effect`s it performed, so that "how many times was a collaborator invoked"
is part of the embedded behaviour.
-/

/-- The `RPCPlatform` enumeration from cli.go (`RPCSICash`, `RPCEthereum`). -/
inductive RPCPlatform
  | RPCSICash
  | RPCEthereum
deriving DecidableEq

/-- A parsed URL, as produced by the external `url.ParseRequestURI`. -/
structure URL where
  raw : String
deriving DecidableEq

/-- Modelled from the spec: a contract address, rendered as a string subject to
the process-wide address-format toggle (`contract` package, not under src/). -/
structure Address where
  hex : String
deriving DecidableEq

/-- Modelled from the spec: a repository entry `Contract{Address}`. -/
structure Contract where
  address : Address
deriving DecidableEq

/-- Modelled from the spec: the external contracts repository handle, exposing
a `Get(name) -> (Contract, found bool)` lookup (its implementation is not
under src/; only the interface used by cli.go is embedded). -/
structure contract.ContractsRepository where
  contracts : List (String × Contract)
deriving DecidableEq

/-- `Get` on the repository handle: name lookup, `none` when not found. -/
def contract.ContractsRepository.Get (repo : contract.ContractsRepository)
    (name : String) : Option Contract :=
  repo.contracts.lookup name

/-- Modelled from the spec: rendering an address as a string; the boolean is
the process-wide `SetFormatBytesWithPrefix` toggle of the `contract` package. -/
def Address.render (pfx : Bool) (a : Address) : String :=
  if pfx then "0x" ++ a.hex else a.hex

/-- A deployer handle; the constructor records which backend produced it
(`sicash.NewDeployer` or `eth.NewDeployer`), the payload is an abstract id. -/
inductive DeployerHandle
  | sicash (h : Nat)
  | eth (h : Nat)
deriving DecidableEq

/-- A Go channel, abstracted to its capacity.  `make(chan interface)` with no
size argument creates a channel of capacity 0 (unbuffered). -/
structure GoChan where
  capacity : Nat
deriving DecidableEq

/-- Modelled from Go channel semantics: a send on a channel blocks unless a
receiver is currently waiting or the buffer has free space
(`queued < capacity`). -/
def GoChan.sendWouldBlock (ch : GoChan) (queued : Nat)
    (receiverWaiting : Bool) : Bool :=
  !receiverWaiting && decide (ch.capacity ≤ queued)

/-- The `events` struct (its file is not under src/): cli.go constructs it as
`events{in: make(chan interface)}`, i.e. with an unbuffered inbound channel. -/
structure events where
  inChan : GoChan
deriving DecidableEq

/-- The fields of the `solarCLI` struct that carry state (the `sync.Once`
fields are represented by the `Option` being `none`/`some`), plus the
`contract` package's process-wide bytes-format toggle. -/
structure solarCLIState where
  depoyer : Option DeployerHandle
  repo : Option contract.ContractsRepository
  reporter : Option events
  formatBytesWithPrefixFlag : Bool
deriving DecidableEq

/-- `var solar = &solarCLI{}`: the zero-valued initial state (and the
`contract` package's format toggle starts out false). -/
def solarInitState : solarCLIState :=
  { depoyer := none, repo := none, reporter := none,
    formatBytesWithPrefixFlag := false }

/-- The fatal process-exit paths of cli.go (`log.Fatal*` / `os.Exit(1)`). -/
inductive FatalError
  | unspecifiedRPC
  | invalidRPCURL (raw : String)
  | newDeployerError (msg : String)
  | repoOpenError (path : String) (msg : String)
deriving DecidableEq

/-- `errorUnspecifiedRPC` from cli.go. -/
def errorUnspecifiedRPC : FatalError := .unspecifiedRPC

/-- The message text carried by each fatal error, following cli.go. -/
def FatalError.message : FatalError → String
  | .unspecifiedRPC =>
      "Please specify RPC url by setting SICASH_RPC or ETH_RPC or using flag --sicash_rpc or --eth_rpc"
  | .invalidRPCURL raw => "Invalid RPC url: " ++ raw
  | .newDeployerError msg => "NewDeployer error " ++ msg
  | .repoOpenError path msg =>
      "error opening contracts repo file " ++ path ++ ": " ++ msg

/-- The panic raised inside `ExpandJSONParams` when a placeholder name is not
found in the repository (`errors.Errorf("Invalid address expansion: %s", key)`);
it aborts the expansion only, not the process. -/
inductive ExpandError
  | unknownPlaceholder (key : String)
deriving DecidableEq

/-- External collaborator calls performed by the embedded functions. -/
inductive Effect
  | openRepo (path : String)
  | callSicashNewDeployer
  | callEthNewDeployer
deriving DecidableEq

/-- Whether an effect is a backend-deployer construction call. -/
def Effect.isDeployerConstruction : Effect → Bool
  | .callSicashNewDeployer => true
  | .callEthNewDeployer => true
  | .openRepo _ => false

/-- The configuration flags of cli.go, resolved once at startup. -/
structure Config where
  sicashRPC : String
  sicashSenderAddress : String
  ethRPC : String
  solarEnv : String
  solarRepo : String
  solcOptimize : Bool
  solcAllowPaths : String
deriving DecidableEq

/-- Modelled from the spec: the compiler options record
(`CompilerOptions{NoOptimize, AllowPaths}`; its declaring file is not under
src/, only the two fields assigned by cli.go are embedded). -/
structure CompilerOptions where
  NoOptimize : Bool
  AllowPaths : List String
deriving DecidableEq

/-- The external collaborators called by cli.go, at call granularity.  The two
deployer constructors follow Go's two-valued return `(deployer, err)`: an
optional abstract handle id and an optional error message. -/
structure Externals where
  getwd : Except String String
  openContractsRepository : String → Except String contract.ContractsRepository
  parseRequestURI : String → Option URL
  sicashNewDeployer : URL → contract.ContractsRepository → String →
    Option Nat × Option String
  ethNewDeployer : URL → contract.ContractsRepository →
    Option Nat × Option String

/-- `solarCLI.RPCPlatform` from cli.go: fatal when both endpoints are empty,
sicash when its endpoint is non-empty, ethereum otherwise. -/
def solarCLI.RPCPlatform (cfg : Config) : Except FatalError RPCPlatform :=
  if cfg.sicashRPC = "" ∧ cfg.ethRPC = "" then
    .error errorUnspecifiedRPC
  else if cfg.sicashRPC ≠ "" then
    .ok .RPCSICash
  else
    .ok .RPCEthereum

/-- `solarCLI.Reporter` from cli.go: lazily (via `reporterOnce`) builds the
`events` value with an unbuffered channel; memoized thereafter. -/
def solarCLI.Reporter (s : solarCLIState) : events × solarCLIState :=
  match s.reporter with
  | some r => (r, s)
  | none =>
    let r : events := { inChan := { capacity := 0 } }
    (r, { s with reporter := some r })

/-- Modelled from Go's `strings.Split` with separator "," (as called by
cli.go): split around each comma; the empty string yields a single empty
field. -/
def stringsSplitCommaAux : List Char → List Char → List (List Char)
  | [], acc => [acc.reverse]
  | c :: rest, acc =>
    if c = ',' then acc.reverse :: stringsSplitCommaAux rest []
    else stringsSplitCommaAux rest (c :: acc)

/-- `strings.Split(s, ",")` as used by `SolcOptions`. -/
def stringsSplitComma (s : String) : List String :=
  (stringsSplitCommaAux s.data []).map String.mk

/-- `solarCLI.SolcOptions` from cli.go: when the allow-paths flag is empty the
current working directory is used in its place; the resulting string is split
on commas; `NoOptimize` is the negation of the optimize flag. -/
def solarCLI.SolcOptions (ext : Externals) (cfg : Config) :
    Except String CompilerOptions :=
  let allowPathsRes : Except String String :=
    if cfg.solcAllowPaths = "" then
      match ext.getwd with
      | .error e => .error ("solc options: " ++ e)
      | .ok cwd => .ok cwd
    else
      .ok cfg.solcAllowPaths
  match allowPathsRes with
  | .error e => .error e
  | .ok allowPathsStr =>
    .ok { NoOptimize := !cfg.solcOptimize,
          AllowPaths := stringsSplitComma allowPathsStr }

/-- The repository file path resolved inside `ContractsRepository`:
the explicit override when non-empty, else `solar.<env>.json`. -/
def repoFilePath (cfg : Config) : String :=
  if cfg.solarRepo ≠ "" then cfg.solarRepo
  else "solar." ++ cfg.solarEnv ++ ".json"

/-- `solarCLI.ContractsRepository` from cli.go: lazily (via `repoOnce`) opens
the resolved repository file; a failed open prints the path and error and
exits the process; memoized thereafter. -/
def solarCLI.ContractsRepository (ext : Externals) (cfg : Config)
    (s : solarCLIState) :
    Except FatalError (contract.ContractsRepository × solarCLIState × List Effect) :=
  match s.repo with
  | some repo => .ok (repo, s, [])
  | none =>
    let path := repoFilePath cfg
    match ext.openContractsRepository path with
    | .error msg => .error (.repoOpenError path msg)
    | .ok repo => .ok (repo, { s with repo := some repo }, [Effect.openRepo path])

/-- Characters accepted in a bare placeholder identifier. -/
def varstrIdentChar (c : Char) : Bool := c.isAlphanum || c = '_'

/-- The placeholder delimiter characters (written via their code points). -/
def braceOpenChar : Char := Char.ofNat 123

/-- Closing placeholder delimiter character. -/
def braceCloseChar : Char := Char.ofNat 125

/-- Modelled from the spec: the scanner of `varstr.Expand` (the `varstr`
package is not under src/).  Single pass, left to right; a sigil `$`
introduces either a delimited identifier or a bare identifier; the identifier
is passed to the lookup function; its replacement is emitted and never
re-scanned; other characters pass through unchanged.  The `Nat` argument is
recursion fuel; it never runs out when started at the input length, since
every step consumes at least one character. -/
def varstrExpandAux (lookup : String → Except ExpandError String) :
    Nat → List Char → Except ExpandError (List Char)
  | _, [] => .ok []
  | 0, l => .ok l
  | fuel + 1, c :: rest =>
    if c = '$' then
      if rest.head? = some braceOpenChar then
        let rest2 := rest.tail
        let nameChars := rest2.takeWhile (fun ch => ch != braceCloseChar)
        let rest3 := (rest2.dropWhile (fun ch => ch != braceCloseChar)).drop 1
        match lookup (String.mk nameChars) with
        | .error e => .error e
        | .ok sub =>
          Except.map (fun out => sub.data ++ out) (varstrExpandAux lookup fuel rest3)
      else
        let nameChars := rest.takeWhile varstrIdentChar
        let restAfter := rest.dropWhile varstrIdentChar
        match lookup (String.mk nameChars) with
        | .error e => .error e
        | .ok sub =>
          Except.map (fun out => sub.data ++ out) (varstrExpandAux lookup fuel restAfter)
    else
      Except.map (fun out => c :: out) (varstrExpandAux lookup fuel rest)

/-- Modelled from the spec: `varstr.Expand` (not under src/) — expand every
placeholder in the template using the given lookup; the lookup's failure
(the panic of cli.go's callback) aborts the whole expansion. -/
def varstrExpand (template : String)
    (lookup : String → Except ExpandError String) : Except ExpandError String :=
  Except.map String.mk (varstrExpandAux lookup template.data.length template.data)

/-- The lookup callback that `ExpandJSONParams` passes to `varstr.Expand`:
a missing name panics with the name; a found contract renders its address. -/
def expandLookup (repo : contract.ContractsRepository) (pfx : Bool)
    (key : String) : Except ExpandError String :=
  match repo.Get key with
  | none => .error (.unknownPlaceholder key)
  | some c => .ok (Address.render pfx c.address)

/-- `solarCLI.ExpandJSONParams` from cli.go: materializes the contracts
repository first (even when the template has no placeholders), then expands
the template with the repository-lookup callback. -/
def solarCLI.ExpandJSONParams (ext : Externals) (cfg : Config)
    (s : solarCLIState) (jsonParams : String) :
    Except FatalError (Except ExpandError String × solarCLIState × List Effect) :=
  match solarCLI.ContractsRepository ext cfg s with
  | .error e => .error e
  | .ok (repo, s1, tr) =>
    .ok (varstrExpand jsonParams (expandLookup repo s1.formatBytesWithPrefixFlag),
         s1, tr)

/-- `solarCLI.ConfigureBytesOutputFormat` from cli.go: when the eth endpoint
is non-empty, set the process-wide with-prefix bytes format toggle. -/
def solarCLI.ConfigureBytesOutputFormat (cfg : Config) (s : solarCLIState) :
    solarCLIState :=
  if cfg.ethRPC ≠ "" then { s with formatBytesWithPrefixFlag := true } else s

/-- The first `if` block of `solarCLI.Deployer`: when the sicash endpoint is
non-empty, parse it (fatal when malformed), materialize the repository and
call `sicash.NewDeployer`; yields the `(deployer, err)` pair of Go locals. -/
def solarCLI.deployerSicashStep (ext : Externals) (cfg : Config)
    (s0 : solarCLIState) :
    Except FatalError ((Option DeployerHandle × Option String) × solarCLIState × List Effect) :=
  if cfg.sicashRPC ≠ "" then
    match ext.parseRequestURI cfg.sicashRPC with
    | none => .error (.invalidRPCURL cfg.sicashRPC)
    | some rpcURL =>
      match solarCLI.ContractsRepository ext cfg s0 with
      | .error e => .error e
      | .ok (repo, s1, tr1) =>
        let res := ext.sicashNewDeployer rpcURL repo cfg.sicashSenderAddress
        .ok ((Option.map DeployerHandle.sicash res.1, res.2), s1,
             tr1 ++ [Effect.callSicashNewDeployer])
  else
    .ok ((none, none), s0, [])

/-- The second `if` block of `solarCLI.Deployer`: when the eth endpoint is
non-empty, parse it (fatal when malformed), materialize the repository and
call `eth.NewDeployer`, overwriting the `(deployer, err)` pair from the
sicash block; otherwise the pair is left as it was. -/
def solarCLI.deployerEthStep (ext : Externals) (cfg : Config)
    (acc : Option DeployerHandle × Option String) (s1 : solarCLIState)
    (tr1 : List Effect) :
    Except FatalError ((Option DeployerHandle × Option String) × solarCLIState × List Effect) :=
  if cfg.ethRPC ≠ "" then
    match ext.parseRequestURI cfg.ethRPC with
    | none => .error (.invalidRPCURL cfg.ethRPC)
    | some rpcURL =>
      match solarCLI.ContractsRepository ext cfg s1 with
      | .error e => .error e
      | .ok (repo, s2, tr2) =>
        let res := ext.ethNewDeployer rpcURL repo
        .ok ((Option.map DeployerHandle.eth res.1, res.2), s2,
             tr1 ++ tr2 ++ [Effect.callEthNewDeployer])
  else
    .ok (acc, s1, tr1)

/-- `solarCLI.Deployer` from cli.go: run the sicash block then the eth block,
then the nil-deployer check (fatal `errorUnspecifiedRPC`) and the error check
(fatal `NewDeployer error`).  Note that this function does not consult the
`depoyer`/`deployerOnce` fields of the struct at all. -/
def solarCLI.Deployer (ext : Externals) (cfg : Config) (s0 : solarCLIState) :
    Except FatalError (DeployerHandle × solarCLIState × List Effect) :=
  match solarCLI.deployerSicashStep ext cfg s0 with
  | .error e => .error e
  | .ok (acc, s1, tr1) =>
    match solarCLI.deployerEthStep ext cfg acc s1 tr1 with
    | .error e => .error e
    | .ok (accF, s2, tr) =>
      match accF.1 with
      | none => .error errorUnspecifiedRPC
      | some d =>
        match accF.2 with
        | some msg => .error (.newDeployerError msg)
        | none => .ok (d, s2, tr)

/-- Dropping a prefix by a predicate never lengthens a list. -/
theorem lengthDropWhileLe {α : Type} (p : α → Bool) :
    ∀ l : List α, (l.dropWhile p).length ≤ l.length := by
  intro l
  induction l with
  | nil => simp
  | cons a l ih =>
    by_cases h : p a
    · rw [List.dropWhile_cons_of_pos h]; exact Nat.le_succ_of_le ih
    · rw [List.dropWhile_cons_of_neg h]

/-- When every element of `name` satisfies `p` and the head of `rest` does
not, `takeWhile`/`dropWhile` split `name ++ rest` exactly at the boundary. -/
theorem takeWhile_append_all {α : Type} {p : α → Bool} :
    ∀ (name rest : List α), (∀ c ∈ name, p c = true) →
      (∀ c, rest.head? = some c → p c = false) →
      (name ++ rest).takeWhile p = name ∧ (name ++ rest).dropWhile p = rest := by
  intro name
  induction name with
  | nil =>
    intro rest _ hrest
    cases rest with
    | nil => exact ⟨rfl, rfl⟩
    | cons r rs =>
      have hr : p r = false := hrest r rfl
      constructor
      · simp [List.takeWhile_cons, hr]
      · simp [List.dropWhile_cons, hr]
  | cons a name ih =>
    intro rest hname hrest
    have ha : p a = true := hname a (by simp)
    have h2 := ih rest (fun c hc => hname c (by simp [hc])) hrest
    constructor
    · simp [List.takeWhile_cons, ha, h2.1]
    · simp [List.dropWhile_cons, ha, h2.2]

/-- Scanning a sigil-free prefix copies it to the output verbatim. -/
theorem varstrExpandAux_plain (lookup : String → Except ExpandError String) :
    ∀ (pre rest : List Char) (fuel : Nat), (∀ c ∈ pre, c ≠ '$') →
      varstrExpandAux lookup (fuel + pre.length) (pre ++ rest)
        = Except.map (fun out => pre ++ out) (varstrExpandAux lookup fuel rest) := by
  intro pre
  induction pre with
  | nil =>
    intro rest fuel _
    cases h : varstrExpandAux lookup fuel rest <;> simp [Except.map, h]
  | cons c pre ih =>
    intro rest fuel hpre
    have hc : ¬ c = '$' := hpre c (by simp)
    have step : varstrExpandAux lookup (fuel + (c :: pre).length) ((c :: pre) ++ rest)
        = Except.map (fun out => c :: out)
            (varstrExpandAux lookup (fuel + pre.length) (pre ++ rest)) := by
      show varstrExpandAux lookup ((fuel + pre.length) + 1) (c :: (pre ++ rest)) = _
      simp only [varstrExpandAux]
      rw [if_neg hc]
    rw [step, ih rest fuel (fun d hd => hpre d (by simp [hd]))]
    cases h : varstrExpandAux lookup fuel rest <;> simp [Except.map, h]

/-- Scanning a bare placeholder `$name` (maximal identifier run) consults the
lookup: a failure aborts, a hit substitutes and the scan continues after the
identifier. -/
theorem varstrExpandAux_bare (lookup : String → Except ExpandError String)
    (name rest : List Char) (fuel : Nat)
    (hne : name ≠ []) (hid : ∀ c ∈ name, varstrIdentChar c = true)
    (hrest : ∀ c, rest.head? = some c → varstrIdentChar c = false) :
    varstrExpandAux lookup (fuel + 1) ('$' :: (name ++ rest))
      = match lookup (String.mk name) with
        | .error e => .error e
        | .ok sub => Except.map (fun out => sub.data ++ out)
            (varstrExpandAux lookup fuel rest) := by
  obtain ⟨n0, name2, rfl⟩ : ∃ n0 name2, name = n0 :: name2 := by
    cases name with
    | nil => exact absurd rfl hne
    | cons a b => exact ⟨a, b, rfl⟩
  have hn0 : varstrIdentChar n0 = true := hid n0 (by simp)
  have hn0brace : ¬ ((n0 :: name2) ++ rest).head? = some braceOpenChar := by
    simp only [List.cons_append, List.head?_cons, Option.some.injEq]
    intro h
    rw [h] at hn0
    exact absurd hn0 (by decide)
  have htake := takeWhile_append_all (p := varstrIdentChar) (n0 :: name2) rest hid hrest
  simp only [varstrExpandAux]
  rw [if_pos trivial, if_neg hn0brace, htake.1, htake.2]

/-- Scanning a delimited placeholder consults the lookup for the delimited
name: a failure aborts, a hit substitutes and the scan continues after the
closing delimiter. -/
theorem varstrExpandAux_braced (lookup : String → Except ExpandError String)
    (name rest : List Char) (fuel : Nat)
    (hname : ∀ c ∈ name, c ≠ braceCloseChar) :
    varstrExpandAux lookup (fuel + 1)
        ('$' :: braceOpenChar :: (name ++ braceCloseChar :: rest))
      = match lookup (String.mk name) with
        | .error e => .error e
        | .ok sub => Except.map (fun out => sub.data ++ out)
            (varstrExpandAux lookup fuel rest) := by
  have htake := takeWhile_append_all (p := fun ch => ch != braceCloseChar)
    name (braceCloseChar :: rest)
    (fun c hc => by simp [bne_iff_ne, hname c hc])
    (fun c hc => by
      simp only [List.head?_cons, Option.some.injEq] at hc
      simp [hc, bne])
  simp only [varstrExpandAux]
  rw [if_pos trivial, if_pos (by simp), List.tail_cons, htake.1, htake.2, List.drop_one,
    List.tail_cons]

/-- The scanner's result does not depend on the fuel, as long as the fuel
covers the input length. -/
theorem varstrExpandAux_fuel (lookup : String → Except ExpandError String) :
    ∀ (fuel1 : Nat) (l : List Char) (fuel2 : Nat),
      l.length ≤ fuel1 → l.length ≤ fuel2 →
      varstrExpandAux lookup fuel1 l = varstrExpandAux lookup fuel2 l := by
  intro fuel1
  induction fuel1 with
  | zero =>
    intro l fuel2 h1 _
    have hl : l = [] := List.length_eq_zero.mp (Nat.le_zero.mp h1)
    subst hl
    cases fuel2 <;> rfl
  | succ f1 ih =>
    intro l fuel2 h1 h2
    cases l with
    | nil => cases fuel2 <;> rfl
    | cons c rest =>
      cases fuel2 with
      | zero => simp at h2
      | succ f2 =>
        have hr1 : rest.length ≤ f1 := by
          simpa using Nat.succ_le_succ_iff.mp (by simpa using h1)
        have hr2 : rest.length ≤ f2 := by
          simpa using Nat.succ_le_succ_iff.mp (by simpa using h2)
        simp only [varstrExpandAux]
        by_cases hc : c = '$'
        · rw [if_pos hc, if_pos hc]
          by_cases hb : rest.head? = some braceOpenChar
          · rw [if_pos hb, if_pos hb]
            have hlen : ((rest.tail.dropWhile (fun ch => ch != braceCloseChar)).drop 1).length
                ≤ rest.length := by
              calc ((rest.tail.dropWhile (fun ch => ch != braceCloseChar)).drop 1).length
                  ≤ (rest.tail.dropWhile (fun ch => ch != braceCloseChar)).length := by
                    rw [List.length_drop]; exact Nat.sub_le _ _
                _ ≤ rest.tail.length := lengthDropWhileLe _ _
                _ ≤ rest.length := by
                    cases rest <;> simp [List.length_tail]
            rw [ih _ f2 (Nat.le_trans hlen hr1) (Nat.le_trans hlen hr2)]
          · rw [if_neg hb, if_neg hb]
            have hlen : (rest.dropWhile varstrIdentChar).length ≤ rest.length :=
              lengthDropWhileLe _ _
            rw [ih _ f2 (Nat.le_trans hlen hr1) (Nat.le_trans hlen hr2)]
        · rw [if_neg hc, if_neg hc, ih rest f2 hr1 hr2]

/-- Appending strings appends their character data. -/
theorem stringMkAppend (a b : List Char) :
    String.mk a ++ String.mk b = String.mk (a ++ b) := rfl

/-- Behaviour of `varstrExpand` on a template holding a bare placeholder
`$name` after a sigil-free prefix. -/
theorem varstrExpand_bare (lk : String → Except ExpandError String)
    (pre name rest : List Char)
    (hpre : ∀ c ∈ pre, c ≠ '$') (hne : name ≠ [])
    (hid : ∀ c ∈ name, varstrIdentChar c = true)
    (hrest : ∀ c, rest.head? = some c → varstrIdentChar c = false) :
    varstrExpand (String.mk (pre ++ '$' :: (name ++ rest))) lk
      = match lk (String.mk name) with
        | .error e => .error e
        | .ok sub => Except.map (fun out => String.mk pre ++ sub ++ out)
            (varstrExpand (String.mk rest) lk) := by
  show Except.map String.mk
      (varstrExpandAux lk (pre ++ '$' :: (name ++ rest)).length
        (pre ++ '$' :: (name ++ rest))) = _
  rw [show (pre ++ '$' :: (name ++ rest)).length
      = ('$' :: (name ++ rest)).length + pre.length from by
    simp [List.length_append, Nat.add_comm]]
  rw [varstrExpandAux_plain lk pre ('$' :: (name ++ rest)) _ hpre]
  rw [show ('$' :: (name ++ rest)).length = (name.length + rest.length) + 1 from by
    simp [List.length_append]]
  rw [varstrExpandAux_bare lk name rest _ hne hid hrest]
  rw [varstrExpandAux_fuel lk (name.length + rest.length) rest rest.length
    (Nat.le_add_left _ _) (Nat.le_refl _)]
  cases hlk : lk (String.mk name) with
  | error e => rfl
  | ok sub =>
    show Except.map String.mk
        (Except.map (fun out => pre ++ out)
          (Except.map (fun out => sub.data ++ out) (varstrExpandAux lk rest.length rest)))
      = Except.map (fun out => String.mk pre ++ sub ++ out)
          (Except.map String.mk (varstrExpandAux lk rest.length rest))
    cases h : varstrExpandAux lk rest.length rest with
    | error e => rfl
    | ok out =>
      show Except.ok (String.mk (pre ++ (sub.data ++ out)))
          = Except.ok (String.mk pre ++ sub ++ String.mk out)
      rw [show String.mk pre ++ sub ++ String.mk out
          = String.mk ((pre ++ sub.data) ++ out) from rfl]
      rw [List.append_assoc]

/-- Behaviour of `varstrExpand` on a template holding a delimited placeholder
after a sigil-free prefix. -/
theorem varstrExpand_braced (lk : String → Except ExpandError String)
    (pre name rest : List Char)
    (hpre : ∀ c ∈ pre, c ≠ '$')
    (hname : ∀ c ∈ name, c ≠ braceCloseChar) :
    varstrExpand
        (String.mk (pre ++ '$' :: braceOpenChar :: (name ++ braceCloseChar :: rest))) lk
      = match lk (String.mk name) with
        | .error e => .error e
        | .ok sub => Except.map (fun out => String.mk pre ++ sub ++ out)
            (varstrExpand (String.mk rest) lk) := by
  show Except.map String.mk
      (varstrExpandAux lk
        (pre ++ '$' :: braceOpenChar :: (name ++ braceCloseChar :: rest)).length
        (pre ++ '$' :: braceOpenChar :: (name ++ braceCloseChar :: rest))) = _
  rw [show (pre ++ '$' :: braceOpenChar :: (name ++ braceCloseChar :: rest)).length
      = ('$' :: braceOpenChar :: (name ++ braceCloseChar :: rest)).length + pre.length from by
    simp [List.length_append, Nat.add_comm]]
  rw [varstrExpandAux_plain lk pre _ _ hpre]
  rw [show ('$' :: braceOpenChar :: (name ++ braceCloseChar :: rest)).length
      = ((name ++ braceCloseChar :: rest).length + 1) + 1 from by
    simp [List.length_append]]
  rw [varstrExpandAux_braced lk name rest _ hname]
  rw [varstrExpandAux_fuel lk ((name ++ braceCloseChar :: rest).length + 1) rest rest.length
    (by simp [List.length_append]; omega) (Nat.le_refl _)]
  cases hlk : lk (String.mk name) with
  | error e => rfl
  | ok sub =>
    show Except.map String.mk
        (Except.map (fun out => pre ++ out)
          (Except.map (fun out => sub.data ++ out) (varstrExpandAux lk rest.length rest)))
      = Except.map (fun out => String.mk pre ++ sub ++ out)
          (Except.map String.mk (varstrExpandAux lk rest.length rest))
    cases h : varstrExpandAux lk rest.length rest with
    | error e => rfl
    | ok out =>
      show Except.ok (String.mk (pre ++ (sub.data ++ out)))
          = Except.ok (String.mk pre ++ sub ++ String.mk out)
      rw [show String.mk pre ++ sub ++ String.mk out
          = String.mk ((pre ++ sub.data) ++ out) from rfl]
      rw [List.append_assoc]

/-- Claim C6: during `ExpandJSONParams`, for every placeholder identifier
encountered (in bare or delimited form): when the repository lookup reports
the name as not found, expansion aborts immediately with the
unknown-placeholder panic carrying that identifier; when found, the
placeholder is replaced by the contract's address rendered as a string and
expansion continues with the remainder of the template. -/
theorem expandJSONParams_placeholder (ext : Externals) (cfg : Config)
    (s : solarCLIState) (repo : contract.ContractsRepository)
    (s1 : solarCLIState) (tr : List Effect) (pre name rest : List Char)
    (hrepo : solarCLI.ContractsRepository ext cfg s = .ok (repo, s1, tr))
    (hpre : ∀ c ∈ pre, c ≠ '$') :
    (name ≠ [] → (∀ c ∈ name, varstrIdentChar c = true) →
      (∀ c, rest.head? = some c → varstrIdentChar c = false) →
      ((repo.Get (String.mk name) = none →
        solarCLI.ExpandJSONParams ext cfg s (String.mk (pre ++ '$' :: (name ++ rest)))
          = .ok (.error (.unknownPlaceholder (String.mk name)), s1, tr)) ∧
       (∀ ct, repo.Get (String.mk name) = some ct →
        solarCLI.ExpandJSONParams ext cfg s (String.mk (pre ++ '$' :: (name ++ rest)))
          = .ok (Except.map
              (fun out => String.mk pre
                ++ Address.render s1.formatBytesWithPrefixFlag ct.address ++ out)
              (varstrExpand (String.mk rest)
                (expandLookup repo s1.formatBytesWithPrefixFlag)),
              s1, tr)))) ∧
    ((∀ c ∈ name, c ≠ braceCloseChar) →
      ((repo.Get (String.mk name) = none →
        solarCLI.ExpandJSONParams ext cfg s
            (String.mk (pre ++ '$' :: braceOpenChar :: (name ++ braceCloseChar :: rest)))
          = .ok (.error (.unknownPlaceholder (String.mk name)), s1, tr)) ∧
       (∀ ct, repo.Get (String.mk name) = some ct →
        solarCLI.ExpandJSONParams ext cfg s
            (String.mk (pre ++ '$' :: braceOpenChar :: (name ++ braceCloseChar :: rest)))
          = .ok (Except.map
              (fun out => String.mk pre
                ++ Address.render s1.formatBytesWithPrefixFlag ct.address ++ out)
              (varstrExpand (String.mk rest)
                (expandLookup repo s1.formatBytesWithPrefixFlag)),
              s1, tr)))) := by
  constructor
  · intro hne hid hrest
    have hexp := varstrExpand_bare (expandLookup repo s1.formatBytesWithPrefixFlag)
      pre name rest hpre hne hid hrest
    constructor
    · intro hget
      have hlkv : expandLookup repo s1.formatBytesWithPrefixFlag (String.mk name)
          = .error (.unknownPlaceholder (String.mk name)) := by
        unfold expandLookup; rw [hget]
      unfold solarCLI.ExpandJSONParams
      rw [hrepo]
      show Except.ok (varstrExpand (String.mk (pre ++ '$' :: (name ++ rest)))
          (expandLookup repo s1.formatBytesWithPrefixFlag), s1, tr) = _
      rw [hexp, hlkv]
    · intro ct hget
      have hlkv : expandLookup repo s1.formatBytesWithPrefixFlag (String.mk name)
          = .ok (Address.render s1.formatBytesWithPrefixFlag ct.address) := by
        unfold expandLookup; rw [hget]
      unfold solarCLI.ExpandJSONParams
      rw [hrepo]
      show Except.ok (varstrExpand (String.mk (pre ++ '$' :: (name ++ rest)))
          (expandLookup repo s1.formatBytesWithPrefixFlag), s1, tr) = _
      rw [hexp, hlkv]
  · intro hname
    have hexp := varstrExpand_braced (expandLookup repo s1.formatBytesWithPrefixFlag)
      pre name rest hpre hname
    constructor
    · intro hget
      have hlkv : expandLookup repo s1.formatBytesWithPrefixFlag (String.mk name)
          = .error (.unknownPlaceholder (String.mk name)) := by
        unfold expandLookup; rw [hget]
      unfold solarCLI.ExpandJSONParams
      rw [hrepo]
      show Except.ok (varstrExpand
          (String.mk (pre ++ '$' :: braceOpenChar :: (name ++ braceCloseChar :: rest)))
          (expandLookup repo s1.formatBytesWithPrefixFlag), s1, tr) = _
      rw [hexp, hlkv]
    · intro ct hget
      have hlkv : expandLookup repo s1.formatBytesWithPrefixFlag (String.mk name)
          = .ok (Address.render s1.formatBytesWithPrefixFlag ct.address) := by
        unfold expandLookup; rw [hget]
      unfold solarCLI.ExpandJSONParams
      rw [hrepo]
      show Except.ok (varstrExpand
          (String.mk (pre ++ '$' :: braceOpenChar :: (name ++ braceCloseChar :: rest)))
          (expandLookup repo s1.formatBytesWithPrefixFlag), s1, tr) = _
      rw [hexp, hlkv]

/-- A repository fixture holding one contract named Token. -/
def repoTokenOnly : contract.ContractsRepository :=
  { contracts := [("Token", { address := { hex := "1234abcd" } })] }

/-- External collaborators that always succeed: repository opens yield the
Token fixture, URLs parse, the sicash constructor yields handle 1 and the
eth constructor handle 2. -/
def extHappy : Externals :=
  { getwd := .ok "/work",
    openContractsRepository := fun _ => .ok repoTokenOnly,
    parseRequestURI := fun raw => some { raw := raw },
    sicashNewDeployer := fun _ _ _ => (some 1, none),
    ethNewDeployer := fun _ _ => (some 2, none) }

/-- Externals whose working directory contains a comma. -/
def extCwdComma : Externals := { extHappy with getwd := .ok "/tmp/a,b" }

/-- A configuration with both endpoints set and the remaining flags at their
default values. -/
def cfgBothSet : Config :=
  { sicashRPC := "http://localhost:3889", sicashSenderAddress := "sender",
    ethRPC := "http://localhost:8545", solarEnv := "development",
    solarRepo := "", solcOptimize := true, solcAllowPaths := "" }

/-- Only the sicash endpoint set. -/
def cfgSicashOnly : Config := { cfgBothSet with ethRPC := "" }

/-- Only the eth endpoint set. -/
def cfgEthOnly : Config := { cfgBothSet with sicashRPC := "" }

/-- Neither endpoint set. -/
def cfgNoneSet : Config := { cfgBothSet with sicashRPC := "", ethRPC := "" }

/-- Both endpoints set, environment name staging. -/
def cfgStaging : Config := { cfgBothSet with solarEnv := "staging" }

/-- The process state after the repository has been materialized once. -/
def stateRepoOpened : solarCLIState := { solarInitState with repo := some repoTokenOnly }

/-- Whether a `Deployer` result is a successfully returned sicash deployer. -/
def deployedBackendIsSicash :
    Except FatalError (DeployerHandle × solarCLIState × List Effect) → Bool
  | .ok (DeployerHandle.sicash _, _, _) => true
  | _ => false

/-- Claim C4: `RPCPlatform` returns the backend-A selector `RPCSICash`
whenever the sicash endpoint is non-empty, regardless of the eth endpoint;
when only the eth endpoint is non-empty it returns `RPCEthereum`. -/
theorem rpcPlatform_selection (cfg : Config) :
    (cfg.sicashRPC ≠ "" → solarCLI.RPCPlatform cfg = .ok .RPCSICash) ∧
    (cfg.sicashRPC = "" → cfg.ethRPC ≠ "" →
      solarCLI.RPCPlatform cfg = .ok .RPCEthereum) := by
  constructor
  · intro h
    unfold solarCLI.RPCPlatform
    rw [if_neg (by tauto), if_pos h]
  · intro h1 h2
    unfold solarCLI.RPCPlatform
    rw [if_neg (by tauto), if_neg (by simp [h1])]

/-- Witness for C4 at two concrete configurations. -/
theorem rpcPlatform_selection_witness :
    solarCLI.RPCPlatform cfgBothSet = .ok .RPCSICash ∧
    solarCLI.RPCPlatform cfgEthOnly = .ok .RPCEthereum :=
  ⟨(rpcPlatform_selection cfgBothSet).1 (by decide),
   (rpcPlatform_selection cfgEthOnly).2 (by decide) (by decide)⟩

/-- Claim C3: for every configuration with both endpoint settings empty,
`RPCPlatform` and `Deployer` both fail fatally with `errorUnspecifiedRPC`,
which carries the descriptive unspecified-RPC message; neither returns a
selector or a deployer. -/
theorem both_endpoints_empty_unspecified (ext : Externals) (cfg : Config)
    (s : solarCLIState) (hA : cfg.sicashRPC = "") (hB : cfg.ethRPC = "") :
    solarCLI.RPCPlatform cfg = .error errorUnspecifiedRPC ∧
    solarCLI.Deployer ext cfg s = .error errorUnspecifiedRPC ∧
    errorUnspecifiedRPC.message
      = "Please specify RPC url by setting SICASH_RPC or ETH_RPC or using flag --sicash_rpc or --eth_rpc" := by
  refine ⟨?_, ?_, rfl⟩
  · unfold solarCLI.RPCPlatform
    rw [if_pos ⟨hA, hB⟩]
  · simp [solarCLI.Deployer, solarCLI.deployerSicashStep, solarCLI.deployerEthStep,
      hA, hB]

/-- Witness for C3 at a concrete empty-endpoints configuration. -/
theorem both_endpoints_empty_unspecified_witness :
    solarCLI.RPCPlatform cfgNoneSet = .error errorUnspecifiedRPC ∧
    solarCLI.Deployer extHappy cfgNoneSet solarInitState = .error errorUnspecifiedRPC :=
  ⟨(both_endpoints_empty_unspecified extHappy cfgNoneSet solarInitState rfl rfl).1,
   (both_endpoints_empty_unspecified extHappy cfgNoneSet solarInitState rfl rfl).2.1⟩

/-- Claim C5: when `ContractsRepository` actually opens the repository (first
access), it opens exactly the override path when that setting is non-empty,
and `solar.<env>.json` otherwise: the opened path appears both in the fatal
open-failure error and in the success effect. -/
theorem contractsRepository_path_resolution (ext : Externals) (cfg : Config)
    (s : solarCLIState) (h : s.repo = none) :
    (∃ msg, ext.openContractsRepository
        (if cfg.solarRepo ≠ "" then cfg.solarRepo
         else "solar." ++ cfg.solarEnv ++ ".json") = .error msg ∧
      solarCLI.ContractsRepository ext cfg s
        = .error (.repoOpenError
            (if cfg.solarRepo ≠ "" then cfg.solarRepo
             else "solar." ++ cfg.solarEnv ++ ".json") msg)) ∨
    (∃ repo, ext.openContractsRepository
        (if cfg.solarRepo ≠ "" then cfg.solarRepo
         else "solar." ++ cfg.solarEnv ++ ".json") = .ok repo ∧
      solarCLI.ContractsRepository ext cfg s
        = .ok (repo, { s with repo := some repo },
            [Effect.openRepo
              (if cfg.solarRepo ≠ "" then cfg.solarRepo
               else "solar." ++ cfg.solarEnv ++ ".json")])) := by
  have hchar : solarCLI.ContractsRepository ext cfg s
      = match ext.openContractsRepository
          (if cfg.solarRepo ≠ "" then cfg.solarRepo
           else "solar." ++ cfg.solarEnv ++ ".json") with
        | .error msg => .error (.repoOpenError
            (if cfg.solarRepo ≠ "" then cfg.solarRepo
             else "solar." ++ cfg.solarEnv ++ ".json") msg)
        | .ok repo => .ok (repo, { s with repo := some repo },
            [Effect.openRepo
              (if cfg.solarRepo ≠ "" then cfg.solarRepo
               else "solar." ++ cfg.solarEnv ++ ".json")]) := by
    unfold solarCLI.ContractsRepository repoFilePath
    rw [h]
  cases hopen : ext.openContractsRepository
      (if cfg.solarRepo ≠ "" then cfg.solarRepo
       else "solar." ++ cfg.solarEnv ++ ".json") with
  | error msg => exact Or.inl ⟨msg, rfl, by rw [hchar, hopen]⟩
  | ok repo => exact Or.inr ⟨repo, rfl, by rw [hchar, hopen]⟩

/-- Witness for C5: environment staging with no override opens
`solar.staging.json`. -/
theorem contractsRepository_path_resolution_witness :
    solarCLI.ContractsRepository extHappy cfgStaging solarInitState
      = .ok (repoTokenOnly, { solarInitState with repo := some repoTokenOnly },
          [Effect.openRepo "solar.staging.json"]) := by
  rcases contractsRepository_path_resolution extHappy cfgStaging solarInitState rfl with
    ⟨msg, hm, _⟩ | ⟨repo, hr, hres⟩
  · exact absurd hm (by simp [extHappy])
  · simp only [extHappy, Except.ok.injEq] at hr
    subst hr
    exact hres

/-- Claim C7 counterexample: with both endpoints set the selected platform is
backend A (`RPCSICash`), yet `ConfigureBytesOutputFormat` still turns the
with-prefix toggle on — so enabling is not equivalent to backend B being the
active selected platform, and the toggle does not stay unchanged. -/
theorem configureBytesOutputFormat_platform_cex :
    solarCLI.RPCPlatform cfgBothSet = .ok .RPCSICash ∧
    solarInitState.formatBytesWithPrefixFlag = false ∧
    (solarCLI.ConfigureBytesOutputFormat cfgBothSet solarInitState).formatBytesWithPrefixFlag
      = true :=
  ⟨rfl, rfl, rfl⟩

/-- Claim C7 (amended): `ConfigureBytesOutputFormat` enables the with-prefix
rendering exactly when the eth endpoint setting is non-empty — regardless of
which platform is selected — and leaves the state unchanged when the eth
endpoint is empty. -/
theorem configureBytesOutputFormat_eth_condition (cfg : Config) (s : solarCLIState) :
    ((solarCLI.ConfigureBytesOutputFormat cfg s).formatBytesWithPrefixFlag
        = ((cfg.ethRPC != "") || s.formatBytesWithPrefixFlag)) ∧
    (cfg.ethRPC = "" → solarCLI.ConfigureBytesOutputFormat cfg s = s) ∧
    (cfg.ethRPC ≠ "" →
      (solarCLI.ConfigureBytesOutputFormat cfg s).formatBytesWithPrefixFlag = true) := by
  unfold solarCLI.ConfigureBytesOutputFormat
  by_cases h : cfg.ethRPC = ""
  · rw [if_neg (by simp [h])]
    refine ⟨by simp [h, bne], fun _ => rfl, fun hc => absurd h hc⟩
  · rw [if_pos h]
    refine ⟨by simp [bne, h], fun hc => absurd hc h, fun _ => rfl⟩

/-- Witness for the amended C7 at concrete configurations. -/
theorem configureBytesOutputFormat_eth_condition_witness :
    solarCLI.ConfigureBytesOutputFormat cfgSicashOnly solarInitState = solarInitState ∧
    (solarCLI.ConfigureBytesOutputFormat cfgEthOnly solarInitState).formatBytesWithPrefixFlag
      = true :=
  ⟨(configureBytesOutputFormat_eth_condition cfgSicashOnly solarInitState).2.1 rfl,
   (configureBytesOutputFormat_eth_condition cfgEthOnly solarInitState).2.2 (by decide)⟩

/-- Claim C8 counterexample: with the allow-paths setting empty and a working
directory containing a comma, `SolcOptions` splits the working directory on
the comma instead of returning the single-element list holding it. -/
theorem solcOptions_cwd_comma_cex :
    solarCLI.SolcOptions extCwdComma cfgBothSet
      = .ok { NoOptimize := false, AllowPaths := ["/tmp/a", "b"] } ∧
    ["/tmp/a", "b"] ≠ ["/tmp/a,b"] :=
  ⟨rfl, by decide⟩

/-- Claim C8 (amended): `SolcOptions` returns `NoOptimize` as the negation of
the optimizer flag, and `AllowPaths` as the comma-separated split of the
allow-paths setting when non-empty, else the comma-separated split of the
working directory (a singleton exactly when the directory has no comma). -/
theorem solcOptions_options (ext : Externals) (cfg : Config) :
    (cfg.solcAllowPaths ≠ "" →
      solarCLI.SolcOptions ext cfg
        = .ok { NoOptimize := !cfg.solcOptimize,
                AllowPaths := stringsSplitComma cfg.solcAllowPaths }) ∧
    (∀ cwd, cfg.solcAllowPaths = "" → ext.getwd = .ok cwd →
      solarCLI.SolcOptions ext cfg
        = .ok { NoOptimize := !cfg.solcOptimize,
                AllowPaths := stringsSplitComma cwd }) := by
  constructor
  · intro h
    unfold solarCLI.SolcOptions
    rw [if_neg (by simp [h])]
  · intro cwd h1 h2
    unfold solarCLI.SolcOptions
    rw [if_pos h1, h2]

/-- Allow-paths flag set to a two-entry comma-separated list. -/
def cfgPathsAB : Config := { cfgBothSet with solcAllowPaths := "a,b" }

/-- Witness for the amended C8 at concrete inputs. -/
theorem solcOptions_options_witness :
    solarCLI.SolcOptions extHappy cfgPathsAB
      = .ok { NoOptimize := false, AllowPaths := ["a", "b"] } ∧
    solarCLI.SolcOptions extHappy cfgBothSet
      = .ok { NoOptimize := false, AllowPaths := ["/work"] } :=
  ⟨(solcOptions_options extHappy cfgPathsAB).1 (by decide),
   (solcOptions_options extHappy cfgBothSet).2 "/work" rfl rfl⟩

/-- Claim C9 counterexample: the reporter's inbound channel has capacity 0
(not unbounded), and a send with no waiting receiver blocks. -/
theorem reporter_channel_send_blocks_cex :
    (solarCLI.Reporter solarInitState).1.inChan.capacity = 0 ∧
    (solarCLI.Reporter solarInitState).1.inChan.sendWouldBlock 0 false = true :=
  ⟨rfl, rfl⟩

/-- Claim C9 (amended): the reporter built on first access has an unbuffered
(capacity-0) inbound channel: an enqueue blocks exactly when the background
drain task is not currently ready to receive. -/
theorem reporter_channel_unbuffered (s : solarCLIState) (h : s.reporter = none) :
    (solarCLI.Reporter s).1.inChan.capacity = 0 ∧
    (∀ queued receiverWaiting,
      (solarCLI.Reporter s).1.inChan.sendWouldBlock queued receiverWaiting
        = !receiverWaiting) := by
  unfold solarCLI.Reporter
  rw [h]
  exact ⟨rfl, fun q w => by simp [GoChan.sendWouldBlock]⟩

/-- Witness for the amended C9 at the initial process state. -/
theorem reporter_channel_unbuffered_witness :
    (solarCLI.Reporter solarInitState).1.inChan.capacity = 0 ∧
    (solarCLI.Reporter solarInitState).1.inChan.sendWouldBlock 5 true = !true :=
  ⟨(reporter_channel_unbuffered solarInitState rfl).1,
   (reporter_channel_unbuffered solarInitState rfl).2 5 true⟩

/-- Claim C1 counterexample: with both endpoints non-empty `Deployer` returns
the deployer constructed by `eth.NewDeployer` (backend B), not the sicash
one. -/
theorem deployer_both_set_returns_eth_cex :
    solarCLI.Deployer extHappy cfgBothSet solarInitState
      = .ok (DeployerHandle.eth 2, stateRepoOpened,
          [Effect.openRepo "solar.development.json", Effect.callSicashNewDeployer,
           Effect.callEthNewDeployer]) ∧
    deployedBackendIsSicash (solarCLI.Deployer extHappy cfgBothSet solarInitState)
      = false :=
  ⟨rfl, rfl⟩

/-- Claim C1 (amended): for every configuration in which both endpoint
settings are non-empty, a successful `Deployer` call returns the backend-B
(eth) deployer — backend B takes priority in the factory's own endpoint
selection, because the eth block runs second and overwrites the sicash
deployer. -/
theorem deployer_both_set_eth_priority (ext : Externals) (cfg : Config)
    (s : solarCLIState) (d : DeployerHandle) (s2 : solarCLIState)
    (tr : List Effect) (hA : cfg.sicashRPC ≠ "") (hB : cfg.ethRPC ≠ "")
    (hok : solarCLI.Deployer ext cfg s = .ok (d, s2, tr)) :
    ∃ n, d = DeployerHandle.eth n := by
  unfold solarCLI.Deployer at hok
  split at hok
  · exact absurd hok (by simp)
  · unfold solarCLI.deployerEthStep at hok
    rw [if_pos hB] at hok
    split at hok
    · exact absurd hok (by simp)
    · rename_i accF s2t trt heqB
      split at heqB
      · exact absurd heqB (by simp)
      · rename_i u hpu
        split at heqB
        · exact absurd heqB (by simp)
        · rename_i repo s2y tr2 hrep
          rcases hde : ext.ethNewDeployer u repo with ⟨dOpt, eOpt⟩
          rw [hde] at heqB
          simp only [Except.ok.injEq, Prod.mk.injEq] at heqB
          obtain ⟨hAcc, hS, hTr⟩ := heqB
          subst hAcc
          cases dOpt with
          | none => exact absurd hok (by simp)
          | some n =>
            cases eOpt with
            | some msg => exact absurd hok (by simp)
            | none =>
              simp only [Option.map_some', Except.ok.injEq, Prod.mk.injEq] at hok
              exact ⟨n, hok.1.symm⟩

/-- Witness for the amended C1 at a concrete both-endpoints configuration. -/
theorem deployer_both_set_eth_priority_witness :
    (cfgBothSet.sicashRPC ≠ "" ∧ cfgBothSet.ethRPC ≠ "") ∧
    ∃ n, DeployerHandle.eth 2 = DeployerHandle.eth n :=
  ⟨⟨by decide, by decide⟩,
   deployer_both_set_eth_priority extHappy cfgBothSet solarInitState
     (DeployerHandle.eth 2) stateRepoOpened
     [Effect.openRepo "solar.development.json", Effect.callSicashNewDeployer,
      Effect.callEthNewDeployer]
     (by decide) (by decide) rfl⟩

/-- Claim C2: `Deployer` ignores the `depoyer`/`deployerOnce` memoization
fields of the `solarCLI` struct: with the sicash endpoint configured, each of
two successive calls performs its own `sicash.NewDeployer` construction (two
constructions in total, not one), and the struct's `depoyer` field is still
unset afterwards. -/
theorem deployer_constructs_on_every_call :
    solarCLI.Deployer extHappy cfgSicashOnly solarInitState
      = .ok (DeployerHandle.sicash 1, stateRepoOpened,
          [Effect.openRepo "solar.development.json", Effect.callSicashNewDeployer]) ∧
    solarCLI.Deployer extHappy cfgSicashOnly stateRepoOpened
      = .ok (DeployerHandle.sicash 1, stateRepoOpened, [Effect.callSicashNewDeployer]) ∧
    stateRepoOpened.depoyer = none ∧
    ([Effect.openRepo "solar.development.json", Effect.callSicashNewDeployer].countP
        Effect.isDeployerConstruction
      + [Effect.callSicashNewDeployer].countP Effect.isDeployerConstruction) = 2 :=
  ⟨rfl, rfl, rfl, rfl⟩

/-- Claim C10: every `ExpandJSONParams` call materializes the contracts
repository before scanning, for every template including placeholder-free
ones: a fatal repository-open failure propagates unchanged, and on success
the resulting state has the repository set, with the open effect recorded on
first access. -/
theorem expandJSONParams_materializes_repo (ext : Externals) (cfg : Config)
    (s : solarCLIState) (template : String) :
    (∀ e, solarCLI.ContractsRepository ext cfg s = .error e →
      solarCLI.ExpandJSONParams ext cfg s template = .error e) ∧
    (∀ repo s1 tr, solarCLI.ContractsRepository ext cfg s = .ok (repo, s1, tr) →
      solarCLI.ExpandJSONParams ext cfg s template
          = .ok (varstrExpand template (expandLookup repo s1.formatBytesWithPrefixFlag),
                 s1, tr) ∧
        s1.repo = some repo ∧
        (s.repo = none → tr = [Effect.openRepo (repoFilePath cfg)])) := by
  constructor
  · intro e he
    unfold solarCLI.ExpandJSONParams
    rw [he]
  · intro repo s1 tr hok
    refine ⟨?_, ?_, ?_⟩
    · unfold solarCLI.ExpandJSONParams
      rw [hok]
    · unfold solarCLI.ContractsRepository at hok
      cases hs : s.repo with
      | some r =>
        rw [hs] at hok
        dsimp only [] at hok
        simp only [Except.ok.injEq, Prod.mk.injEq] at hok
        obtain ⟨h1, h2, h3⟩ := hok
        subst h1; subst h2
        exact hs
      | none =>
        rw [hs] at hok
        dsimp only [] at hok
        cases hopen : ext.openContractsRepository (repoFilePath cfg) with
        | error msg => rw [hopen] at hok; exact absurd hok (by simp)
        | ok r =>
          rw [hopen] at hok
          simp only [Except.ok.injEq, Prod.mk.injEq] at hok
          obtain ⟨h1, h2, h3⟩ := hok
          subst h1; subst h2
          rfl
    · intro hs
      unfold solarCLI.ContractsRepository at hok
      rw [hs] at hok
      dsimp only [] at hok
      cases hopen : ext.openContractsRepository (repoFilePath cfg) with
      | error msg => rw [hopen] at hok; exact absurd hok (by simp)
      | ok r =>
        rw [hopen] at hok
        simp only [Except.ok.injEq, Prod.mk.injEq] at hok
        exact hok.2.2.symm

/-- Witness for C10 at a concrete placeholder-free template. -/
theorem expandJSONParams_materializes_repo_witness :
    solarCLI.ExpandJSONParams extHappy cfgBothSet solarInitState "no vars here"
      = .ok (.ok "no vars here", stateRepoOpened,
          [Effect.openRepo "solar.development.json"]) ∧
    stateRepoOpened.repo = some repoTokenOnly :=
  ⟨((expandJSONParams_materializes_repo extHappy cfgBothSet solarInitState
      "no vars here").2 repoTokenOnly stateRepoOpened
      [Effect.openRepo "solar.development.json"] rfl).1,
   ((expandJSONParams_materializes_repo extHappy cfgBothSet solarInitState
      "no vars here").2 repoTokenOnly stateRepoOpened
      [Effect.openRepo "solar.development.json"] rfl).2.1⟩

/-- Witness for C6: an unknown bare placeholder aborts with the
unknown-placeholder error; a known delimited placeholder is substituted by
the contract's address. -/
theorem expandJSONParams_placeholder_witness :
    solarCLI.ExpandJSONParams extHappy cfgBothSet solarInitState "addr=$Missing"
      = .ok (.error (.unknownPlaceholder "Missing"), stateRepoOpened,
          [Effect.openRepo "solar.development.json"]) ∧
    solarCLI.ExpandJSONParams extHappy cfgBothSet solarInitState "addr=$\x7bToken\x7d"
      = .ok (.ok "addr=1234abcd", stateRepoOpened,
          [Effect.openRepo "solar.development.json"]) := by
  constructor
  · exact ((expandJSONParams_placeholder extHappy cfgBothSet solarInitState
      repoTokenOnly stateRepoOpened [Effect.openRepo "solar.development.json"]
      "addr=".data "Missing".data [] rfl (by decide)).1
      (by decide) (by decide) (fun c h => by simp at h)).1 rfl
  · exact ((expandJSONParams_placeholder extHappy cfgBothSet solarInitState
      repoTokenOnly stateRepoOpened [Effect.openRepo "solar.development.json"]
      "addr=".data "Token".data [] rfl (by decide)).2
      (by decide)).2 { address := { hex := "1234abcd" } } rfl
